import Mathlib

/-!
Shallow embedding of the hierarchy-lowering stage of the atopile viewer
(`src/atopile/viewer/render.py`): the builder `Bob`, its output structures
`Pin`, `Link`, `Block`, and the post-traversal link-scoping loop in
`Bob.build`, together with the parts of the graph-model collaborator
(`atopile.model`) that the builder consumes.  The graph model itself
(vertex/edge store, accessors, the visitor's wander dispatch, and
`resolve_rel_name`) is not part of the rendered core's source; those
definitions are modelled from the specification and marked as such.
-/

namespace Atopile

/-- Vertex type tags, from `atopile.model.model.VertexType` as used by
`render.py`: file, module, component, interface, pin, signal. -/
inductive VertexType where
  | file
  | module
  | component
  | interface
  | pin
  | signal
deriving DecidableEq, Repr

/-- Edge type tags, from `atopile.model.model.EdgeType` as used by
`render.py`: part_of (containment, child to container), instance_of,
connects_to. -/
inductive EdgeType where
  | part_of
  | instance_of
  | connects_to
deriving DecidableEq, Repr

/-- Modelled from the spec: a graph vertex has a dotted hierarchical path
(kept here as its list of segments), exactly one type tag, and an opaque
field mapping.  The local name `ref` is the last path segment and the
parent path is the path without it. -/
structure Vertex where
  path : List String
  vtype : VertexType
  vfields : List (String × String)
deriving DecidableEq, Repr

instance : Inhabited Vertex := ⟨⟨[], VertexType.module, []⟩⟩

/-- The local name of a vertex: the last segment of its path
(`ModelVertexView.ref`, modelled from the spec). -/
def Vertex.ref (v : Vertex) : String := v.path.getLastD ""

/-- The parent path of a vertex: its path with the last segment removed
(`ModelVertexView.parent_path`, modelled from the spec). -/
def Vertex.parent_path (v : Vertex) : List String := v.path.dropLast

/-- Modelled from the spec: a directed, typed edge between two vertices,
referred to by their integer indices. -/
structure Edge where
  src : Nat
  tgt : Nat
  etype : EdgeType
deriving DecidableEq, Repr

instance : Inhabited Edge := ⟨⟨0, 0, EdgeType.connects_to⟩⟩

/-- Modelled from the spec: the immutable graph model.  Vertices are
identified by their position in `vertices`; `edges` is the full typed edge
list; `data` is the model's per-path data store from which a pin's field
mapping (the `fields` sub-mapping) is read. -/
structure Model where
  vertices : List Vertex
  edges : List Edge
  data : List (List String × List (String × String))
deriving Repr

/-- Modelled from the spec: resolve a vertex given its numeric index
(`ModelVertexView.from_indicies` / the `ModelVertexView` constructor). -/
def Model.vertexAt (m : Model) (i : Nat) : Vertex := m.vertices.getD i default

/-- Modelled from the spec: resolve a vertex given its path
(`ModelVertexView.from_path`). -/
def Model.vertexAtPath (m : Model) (p : List String) : Vertex :=
  ((m.vertices.find? (fun v => v.path == p))).getD default

/-- Modelled from the spec: the edges of a given type incident to vertex
`i` in mode "in" (edges whose target is `i`);
`ModelVertexView.get_edges(mode="in", edge_type=t)`. -/
def Model.inEdges (m : Model) (t : EdgeType) (i : Nat) : List Edge :=
  m.edges.filter (fun e => e.etype == t && e.tgt == i)

/-- Modelled from the spec: the edges of a given type incident to vertex
`i` in mode "out" (edges whose source is `i`);
`ModelVertexView.get_edges(mode="out", edge_type=t)`. -/
def Model.outEdges (m : Model) (t : EdgeType) (i : Nat) : List Edge :=
  m.edges.filter (fun e => e.etype == t && e.src == i)

/-- Modelled from the spec: the adjacent vertex indices reachable along
outbound edges of type `t`
(`ModelVertexView.get_adjacents("out", t)`). -/
def Model.adjacentsOut (m : Model) (t : EdgeType) (i : Nat) : List Nat :=
  (m.outEdges t i).map Edge.tgt

/-- Modelled from the spec: the `part_of`-children of vertex `i`
restricted to the given vertex types, as used by the visitor's wander in
mode "in" over `part_of` edges with a vertex-type filter. -/
def Model.childrenOfTypes (m : Model) (i : Nat) (ts : List VertexType) : List Nat :=
  ((m.inEdges EdgeType.part_of i).map Edge.src).filter
    (fun j => (m.vertexAt j).vtype ∈ ts)

/-- Modelled from the spec: all edges of a given type in the whole graph
(`model.graph.es.select(type_eq=...)`). -/
def Model.edgesOfType (m : Model) (t : EdgeType) : List Edge :=
  m.edges.filter (fun e => e.etype == t)

/-- Render a path as its dotted string, as Python's `path` attribute. -/
def pathStr (p : List String) : String := String.intercalate "." p

/-- `Pin` from render.py: name and field mapping. -/
structure Pin where
  name : String
  pfields : List (String × String)
deriving DecidableEq, Repr

/-- `Link` from render.py: name, source and target endpoint strings. -/
structure Link where
  name : String
  source : String
  target : String
deriving DecidableEq, Repr

/-- `Block` from render.py: name, type tag, field mapping, child blocks,
pins, links, optional instance-of path, and the source vertex (the
internal `source: ModelVertexView` attribute, kept here as the vertex
itself so the block's path is recoverable). -/
structure Block where
  name : String
  btype : String
  bfields : List (String × String)
  blocks : List Block
  pins : List Pin
  links : List Link
  instance_of : Option String
  source : Vertex
deriving Repr

instance : Inhabited Block :=
  ⟨⟨"", "", [], [], [], [], none, default⟩⟩

/-- The string name of a vertex type tag (Python `vertex_type.name`). -/
def VertexType.tname : VertexType → String
  | .file => "file"
  | .module => "module"
  | .component => "component"
  | .interface => "interface"
  | .pin => "pin"
  | .signal => "signal"

/-- Modelled from the spec: look up the `fields` sub-mapping of the
model's per-path data store (`model.data.get(path, {}).get("fields", {})`
in `Bob.generic_visit_pin`). -/
def Model.dataFieldsAt (m : Model) (p : List String) : List (String × String) :=
  ((m.data.find? (fun kv => kv.1 == p)).map Prod.snd).getD []

/-- `Bob.generic_visit_pin`: build a Pin named after the vertex's local
name, with the field mapping read from the model's data store. -/
def generic_visit_pin (m : Model) (j : Nat) : Pin :=
  { name := (m.vertexAt j).ref, pfields := m.dataFieldsAt (m.vertexAt j).path }

/-- `Bob.visit_pin`: the elision test.  A pin with exactly one
`connects_to` edge in total (counting both directions) whose other
endpoint is a signal-typed vertex with the same parent path is elided
(`none`); otherwise the pin is materialized via `generic_visit_pin`. -/
def visit_pin (m : Model) (j : Nat) : Option Pin :=
  let connections_in := m.inEdges EdgeType.connects_to j
  let connections_out := m.outEdges EdgeType.connects_to j
  if connections_in.length + connections_out.length = 1 then
    let t : Vertex :=
      if connections_in.length = 1 then
        m.vertexAt (connections_in.headD default).src
      else
        m.vertexAt (connections_out.headD default).tgt
    if t.vtype = VertexType.signal ∧ t.parent_path = (m.vertexAt j).parent_path then
      none
    else
      some (generic_visit_pin m j)
  else
    some (generic_visit_pin m j)

/-- `Bob.wander_interface` together with the visitor dispatch it invokes
on each `part_of`-child of type pin, signal or interface (the wander
itself is modelled from the spec: dispatch by vertex type tag to
`visit_pin`, `visit_signal`, `visit_interface`).  Returns the flattened
pin list and the list of vertex indices appended to `all_verticies`
during the walk.  The fuel argument bounds the recursion depth through
nested interfaces; it plays no role on graphs whose containment is a
finite tree explored within the bound. -/
def wander_interface (m : Model) : Nat → Nat → List Pin × List Nat
  | 0, _ => ([], [])
  | fuel + 1, i =>
    let kids := m.childrenOfTypes i
      [VertexType.pin, VertexType.signal, VertexType.interface]
    let results := kids.map (fun j =>
      match (m.vertexAt j).vtype with
      | VertexType.pin =>
        ((match visit_pin m j with
          | some p => [p]
          | none => []), [j])
      | VertexType.signal => ([generic_visit_pin m j], [j])
      | VertexType.interface =>
        -- `Bob.visit_interface`: gather recursively, prefix each pin name
        -- with the interface's local name and a hyphen; the interface
        -- vertex itself is not appended to `all_verticies`.
        let r := wander_interface m fuel j
        (r.1.map (fun p => { p with name := (m.vertexAt j).ref ++ "-" ++ p.name }),
          r.2)
      | _ => ([], []))
    ((results.map Prod.fst).flatten, (results.map Prod.snd).flatten)

/-- The output of one `generic_visit_block` call: the built block, the
indices appended to `all_verticies`, the paths inserted into
`block_directory_by_path`, and the number of multiple-`instance_of`
warnings logged. -/
structure VisitOut where
  block : Block
  visited : List Nat
  dirPaths : List (List String)
  warnings : Nat
deriving Repr

/-- `Bob.generic_visit_block`: record the vertex as visited, recursively
build child blocks from `part_of`-children of type component/module,
gather pins via `wander_interface`, determine `instance_of` from outbound
`instance_of` edges (warning if more than one, first match used), build
the Block and index it by path in the directory. -/
def generic_visit_block (m : Model) : Nat → Nat → VisitOut
  | 0, _ => { block := default, visited := [], dirPaths := [], warnings := 0 }
  | fuel + 1, i =>
    let v := m.vertexAt i
    let kidIdxs := m.childrenOfTypes i [VertexType.component, VertexType.module]
    let kidResults := kidIdxs.map (fun j => generic_visit_block m fuel j)
    let pr := wander_interface m fuel i
    let instance_ofs := m.adjacentsOut EdgeType.instance_of i
    let inst : Option String :=
      match instance_ofs with
      | [] => none
      | j :: _ => some (pathStr (m.vertexAt j).path)
    let block : Block :=
      { name := v.ref, btype := v.vtype.tname, bfields := v.vfields,
        blocks := kidResults.map VisitOut.block, pins := pr.1, links := [],
        instance_of := inst, source := v }
    { block := block,
      visited := i :: ((kidResults.map VisitOut.visited).flatten ++ pr.2),
      dirPaths := (kidResults.map VisitOut.dirPaths).flatten ++ [v.path],
      warnings := (kidResults.map VisitOut.warnings).sum +
        (if 1 < instance_ofs.length then 1 else 0) }

/-- The longest common path segment sequence of two paths. -/
def commonAncestorPath : List String → List String → List String
  | a :: as, b :: bs => if a = b then a :: commonAncestorPath as bs else []
  | _, _ => []

/-- Modelled from the spec: `resolve_rel_name` (from `atopile.model.names`,
not part of the rendered source) returns the least common ancestor of the
two endpoint vertices along the containment hierarchy together with a
connection name derived from the two endpoints; the LCA is modelled as
the longest common prefix of the two paths, the name as the two dotted
relative paths joined by a tilde. -/
def resolve_rel_name (m : Model) (i j : Nat) : List String × String :=
  let pa := (m.vertexAt i).path
  let pb := (m.vertexAt j).path
  let lca := commonAncestorPath pa pb
  (lca, pathStr (pa.drop lca.length) ++ "~" ++ pathStr (pb.drop lca.length))

/-- Modelled from the spec: `relative_mvv_path` returns the ordered
sequence of vertices on the containment path from just below the ancestor
down to (and including) the descendant with path `p`. -/
def relative_mvv_path (m : Model) (lca : List String) (p : List String) :
    List Vertex :=
  (List.range' lca.length (p.length - lca.length)).map
    (fun k => m.vertexAtPath (p.take (k + 1)))

/-- The scan inside `Bob.build._mod_path`: find the first interface-typed
vertex and split the sequence there (`mvv_path[:i]`, `mvv_path[i:]`);
`none` when no vertex is interface-typed. -/
def splitAtInterface : List Vertex → Option (List Vertex × List Vertex)
  | [] => none
  | v :: vs =>
    if v.vtype = VertexType.interface then some ([], v :: vs)
    else (splitAtInterface vs).map (fun pr => (v :: pr.1, pr.2))

/-- `Bob.build._mod_path`: render a relative vertex sequence, joining with
dots, except that from the first interface-typed vertex onward the
separators become hyphens, with a single dot at the boundary. -/
def mod_path (mvv_path : List Vertex) : String :=
  match splitAtInterface mvv_path with
  | some (pre, post) =>
    String.intercalate "." (pre.map Vertex.ref) ++ "." ++
      String.intercalate "-" (post.map Vertex.ref)
  | none => String.intercalate "." (mvv_path.map Vertex.ref)

/-- One iteration of the connection loop in `Bob.build`: skip the edge if
either endpoint is not among the visited indices, otherwise resolve the
LCA and connection name and build the Link with both endpoints rendered
by `mod_path`. -/
def process_connection (m : Model) (visited : List Nat) (e : Edge) :
    Option (List String × Link) :=
  if e.src ∈ visited ∧ e.tgt ∈ visited then
    let r := resolve_rel_name m e.src e.tgt
    some (r.1,
      { name := r.2,
        source := mod_path (relative_mvv_path m r.1 (m.vertexAt e.src).path),
        target := mod_path (relative_mvv_path m r.1 (m.vertexAt e.tgt).path) })
  else none

/-- The connection loop of `Bob.build`: process the `connects_to` edges in
order, collecting for each eligible edge the directory path it is appended
under together with its Link; a lookup of a path absent from the directory
(`bob.block_directory_by_path[lca.path]`) raises a key error, modelled as
`Except.error`. -/
def append_links (m : Model) (visited : List Nat) (dirPaths : List (List String)) :
    List Edge → Except String (List (List String × Link))
  | [] => Except.ok []
  | e :: es =>
    match process_connection m visited e with
    | none => append_links m visited dirPaths es
    | some pl =>
      if pl.1 ∈ dirPaths then
        match append_links m visited dirPaths es with
        | Except.ok rest => Except.ok (pl :: rest)
        | Except.error s => Except.error s
      else Except.error ("KeyError: " ++ pathStr pl.1)

/-- Replay the directory-mediated link appends onto the block tree: the
directory entry for a path is the tree node built from the vertex with
that path, so appending a Link to the directory entry mutates that tree
node's link list.  Fuel-indexed for structural recursion; with fuel at
least the tree depth every node is reached. -/
def graft (pairs : List (List String × Link)) : Nat → Block → Block
  | 0, b => b
  | fuel + 1, b =>
    { b with
      blocks := b.blocks.map (graft pairs fuel),
      links := b.links ++
        (pairs.filter (fun pl => pl.1 == b.source.path)).map Prod.snd }

/-- `Bob.build`: run the traversal from the root vertex, overwrite the
root block's `instance_of` with the root vertex's own path, then run the
connection loop and apply the resulting appends to the tree. -/
def build (m : Model) (fuel : Nat) (mainIdx : Nat) : Except String Block :=
  let out := generic_visit_block m fuel mainIdx
  let root := { out.block with instance_of := some (pathStr (m.vertexAt mainIdx).path) }
  match append_links m out.visited out.dirPaths (m.edgesOfType EdgeType.connects_to) with
  | Except.ok pairs => Except.ok (graft pairs fuel root)
  | Except.error s => Except.error s

/-- `Bob.visit_interface`, exposed as a standalone function: gather the
pins of the interface's own `part_of`-children and rename each by
prefixing the interface's local name joined by a hyphen.  This is exactly
the interface branch taken inside `wander_interface`. -/
def visit_interface (m : Model) (fuel : Nat) (j : Nat) : List Pin × List Nat :=
  let r := wander_interface m fuel j
  (r.1.map (fun p => { p with name := (m.vertexAt j).ref ++ "-" ++ p.name }), r.2)

/-- The other endpoint of a `connects_to` edge as seen from vertex `j`:
the source for an inbound edge, the target for an outbound one. -/
def Edge.otherEnd (e : Edge) (j : Nat) : Nat :=
  if e.tgt = j then e.src else e.tgt

/-- The elision condition, written from the claim's words: the pin has
exactly one `connects_to` edge in total counting both directions, the
other endpoint of that edge is a signal-typed vertex, and that signal's
parent path equals the pin's own parent path. -/
def elidedSpec (m : Model) (j : Nat) : Prop :=
  ∃ e, m.inEdges EdgeType.connects_to j ++ m.outEdges EdgeType.connects_to j = [e] ∧
    (m.vertexAt (e.otherEnd j)).vtype = VertexType.signal ∧
    (m.vertexAt (e.otherEnd j)).parent_path = (m.vertexAt j).parent_path

/-- The pair a single eligible `connects_to` edge contributes, written
from the claim's words: the key is the path of the least common ancestor
of the two endpoints, the Link's name is the connection name from LCA
resolution, and its source and target are the two endpoints' relative
paths from the LCA rendered by the dual-separator rule. -/
def linkSpec (m : Model) (e : Edge) : List String × Link :=
  let r := resolve_rel_name m e.src e.tgt
  (r.1,
    { name := r.2,
      source := mod_path (relative_mvv_path m r.1 (m.vertexAt e.src).path),
      target := mod_path (relative_mvv_path m r.1 (m.vertexAt e.tgt).path) })

/-- The serialized record format: the subset of JSON produced by the
`to_dict` methods (null, strings, arrays, key-value records). -/
inductive Json where
  | null
  | str (s : String)
  | arr (xs : List Json)
  | obj (kvs : List (String × Json))
deriving Repr

/-- Look up a key in a serialized record; `none` on non-records and
missing keys. -/
def Json.lookup : Json → String → Option Json
  | .obj kvs, k => (kvs.find? (fun kv => kv.1 == k)).map Prod.snd
  | _, _ => none

/-- A field mapping serializes to a record of string values. -/
def fieldsToJson (fs : List (String × String)) : Json :=
  .obj (fs.map (fun kv => (kv.1, .str kv.2)))

/-- `Pin.to_dict`. -/
def Pin.to_dict (p : Pin) : Json :=
  .obj [("name", .str p.name), ("fields", fieldsToJson p.pfields)]

/-- `Link.to_dict`. -/
def Link.to_dict (l : Link) : Json :=
  .obj [("name", .str l.name), ("source", .str l.source), ("target", .str l.target)]

/-- An optional path serializes to a string or to null (Python `None`). -/
def optStrToJson : Option String → Json
  | none => .null
  | some s => .str s

/-- `Block.to_dict`: the recursive serialization of a Block.  Fuel-indexed
for structural recursion; with fuel at least the tree depth it is the
full recursive transform of the source. -/
def Block.to_dict : Nat → Block → Json
  | 0, _ => .null
  | fuel + 1, b =>
    .obj [("name", .str b.name),
          ("type", .str b.btype),
          ("fields", fieldsToJson b.bfields),
          ("blocks", .arr (b.blocks.map (Block.to_dict fuel))),
          ("pins", .arr (b.pins.map Pin.to_dict)),
          ("links", .arr (b.links.map Link.to_dict)),
          ("instance_of", optStrToJson b.instance_of)]

/-! Concrete graphs used as witnesses and counterexamples. -/

/-- A module `M` containing an interface `I` that owns two pins `a`, `b`
connected to each other.  The LCA of the connection is the interface,
which is never indexed in the block directory. -/
def mIface : Model :=
  { vertices :=
      [⟨["M"], VertexType.module, []⟩,
       ⟨["M", "I"], VertexType.interface, []⟩,
       ⟨["M", "I", "a"], VertexType.pin, []⟩,
       ⟨["M", "I", "b"], VertexType.pin, []⟩],
    edges :=
      [⟨1, 0, EdgeType.part_of⟩,
       ⟨2, 1, EdgeType.part_of⟩,
       ⟨3, 1, EdgeType.part_of⟩,
       ⟨2, 3, EdgeType.connects_to⟩],
    data := [] }

/-- The spec's end-to-end design: module `M` with components `C1` (pin
`p`, signal `s`, connected) and `C2` (pin `q` connected to `C1.p`), and
`C1` an instance of two templates `T1`, `T2` (a tolerated anomaly). -/
def mDesign : Model :=
  { vertices :=
      [⟨["M"], VertexType.module, [("k", "v")]⟩,
       ⟨["M", "C1"], VertexType.component, []⟩,
       ⟨["M", "C2"], VertexType.component, []⟩,
       ⟨["M", "C1", "p"], VertexType.pin, []⟩,
       ⟨["M", "C1", "s"], VertexType.signal, []⟩,
       ⟨["M", "C2", "q"], VertexType.pin, []⟩,
       ⟨["T1"], VertexType.module, []⟩,
       ⟨["T2"], VertexType.module, []⟩],
    edges :=
      [⟨1, 0, EdgeType.part_of⟩,
       ⟨2, 0, EdgeType.part_of⟩,
       ⟨3, 1, EdgeType.part_of⟩,
       ⟨4, 1, EdgeType.part_of⟩,
       ⟨5, 2, EdgeType.part_of⟩,
       ⟨1, 6, EdgeType.instance_of⟩,
       ⟨1, 7, EdgeType.instance_of⟩,
       ⟨3, 4, EdgeType.connects_to⟩,
       ⟨5, 3, EdgeType.connects_to⟩],
    data := [(["M", "C1", "p"], [("footprint", "0402")])] }

/-- A module `M` directly owning a pin `r` whose sole connection goes to
the same-parent signal `s`: the pin is elided, yet both endpoints are
registered as visited and the edge still produces a Link. -/
def mElide : Model :=
  { vertices :=
      [⟨["M"], VertexType.module, []⟩,
       ⟨["M", "r"], VertexType.pin, []⟩,
       ⟨["M", "s"], VertexType.signal, []⟩],
    edges :=
      [⟨1, 0, EdgeType.part_of⟩,
       ⟨2, 0, EdgeType.part_of⟩,
       ⟨1, 2, EdgeType.connects_to⟩],
    data := [] }

/-- A module `M` containing nested interfaces `I1` containing `I2`
containing pin `P`: the flattened pin name is `I1-I2-P`. -/
def mNested : Model :=
  { vertices :=
      [⟨["M"], VertexType.module, []⟩,
       ⟨["M", "I1"], VertexType.interface, []⟩,
       ⟨["M", "I1", "I2"], VertexType.interface, []⟩,
       ⟨["M", "I1", "I2", "P"], VertexType.pin, []⟩],
    edges :=
      [⟨1, 0, EdgeType.part_of⟩,
       ⟨2, 1, EdgeType.part_of⟩,
       ⟨3, 2, EdgeType.part_of⟩],
    data := [] }

/-- The root block produced by building the end-to-end design. -/
def mDesignRoot : Block := (build mDesign 5 0).toOption.getD default

/-! Theorems. -/

/-- Grafting link appends never changes a block's `instance_of`. -/
theorem graft_keeps_instance_of (pairs : List (List String × Link)) (fuel : Nat)
    (b : Block) : (graft pairs fuel b).instance_of = b.instance_of := by
  cases fuel <;> rfl

/-- C8: the top-level build operation, after the traversal completes, sets
the returned root Block's `instance_of` to the root vertex's own path,
regardless of what `instance_of` the traversal computed for that vertex. -/
theorem build_sets_root_instance_of (m : Model) (fuel i : Nat) (b : Block)
    (h : build m fuel i = Except.ok b) :
    b.instance_of = some (pathStr (m.vertexAt i).path) := by
  simp only [build] at h
  rcases hap : append_links m (generic_visit_block m fuel i).visited
      (generic_visit_block m fuel i).dirPaths (m.edgesOfType EdgeType.connects_to) with
    s | pairs
  · rw [hap] at h
    exact Except.noConfusion h
  · rw [hap] at h
    have hb : graft pairs fuel
        { (generic_visit_block m fuel i).block with
          instance_of := some (pathStr (m.vertexAt i).path) } = b :=
      Except.ok.inj h
    rw [← hb, graft_keeps_instance_of]

/-- C8 witness: on the end-to-end design the build succeeds and the root
block's `instance_of` is the root vertex's own path, `M`. -/
theorem build_sets_root_instance_of_witness :
    build mDesign 5 0 = Except.ok mDesignRoot ∧
    mDesignRoot.instance_of = some (pathStr (mDesign.vertexAt 0).path) :=
  ⟨rfl, build_sets_root_instance_of mDesign 5 0 mDesignRoot rfl⟩

/-- C10: on a graph where a `connects_to` edge joins two visited pins
whose least common ancestor is an interface (not a block-typed vertex),
the build fails with a lookup error when appending the Link, because the
directory indexes only vertices visited under the generic block rule. -/
theorem build_fails_when_lca_not_in_directory :
    (mIface.vertexAt 1).vtype = VertexType.interface ∧
    (2 ∈ (generic_visit_block mIface 5 0).visited ∧
      3 ∈ (generic_visit_block mIface 5 0).visited) ∧
    (resolve_rel_name mIface 2 3).1 = ["M", "I"] ∧
    ["M", "I"] ∉ (generic_visit_block mIface 5 0).dirPaths ∧
    build mIface 5 0 = Except.error ("KeyError: " ++ pathStr ["M", "I"]) :=
  ⟨by decide, by decide, by decide, by decide, rfl⟩

/-- A block with no `instance_of`, used to inspect serialization. -/
def bNoInst : Block :=
  { name := "B", btype := "module", bfields := [("k", "v")], blocks := [],
    pins := [], links := [], instance_of := none, source := default }

/-- A block carrying a pin and a link, used to inspect serialization. -/
def bPinned : Block :=
  { name := "B2", btype := "component", bfields := [], blocks := [],
    pins := [⟨"p", [("f", "1")]⟩], links := [⟨"n", "a", "b"⟩],
    instance_of := some "T", source := default }

/-- C9 counterexample: a Block with no instance-of path still serializes
to a record in which the `instance_of` key is present (bound to null),
contradicting the claim that the path is absent from the record. -/
theorem to_dict_instance_of_key_always_present :
    bNoInst.instance_of = none ∧
    (Block.to_dict 1 bNoInst).lookup "instance_of" = some Json.null :=
  ⟨rfl, rfl⟩

/-- C9 (amended): serializing a Block is a pure recursive transform
producing a record whose fields are the block's name, type, field
mapping, recursively serialized child blocks, pin records (name, field
mapping), link records (name, source, target) and the instance-of value —
with the `instance_of` key always present, bound to null when the Block
has none — and serialization performs no renaming of its own. -/
theorem to_dict_fields (fuel : Nat) (b : Block) :
    (Block.to_dict (fuel + 1) b).lookup "name" = some (.str b.name)
  ∧ (Block.to_dict (fuel + 1) b).lookup "type" = some (.str b.btype)
  ∧ (Block.to_dict (fuel + 1) b).lookup "fields" = some (fieldsToJson b.bfields)
  ∧ (Block.to_dict (fuel + 1) b).lookup "blocks" =
      some (.arr (b.blocks.map (Block.to_dict fuel)))
  ∧ (Block.to_dict (fuel + 1) b).lookup "pins" =
      some (.arr (b.pins.map Pin.to_dict))
  ∧ (Block.to_dict (fuel + 1) b).lookup "links" =
      some (.arr (b.links.map Link.to_dict))
  ∧ (Block.to_dict (fuel + 1) b).lookup "instance_of" =
      some (optStrToJson b.instance_of)
  ∧ (∀ p ∈ b.pins, (Pin.to_dict p).lookup "name" = some (.str p.name) ∧
      (Pin.to_dict p).lookup "fields" = some (fieldsToJson p.pfields))
  ∧ (∀ l ∈ b.links, (Link.to_dict l).lookup "name" = some (.str l.name) ∧
      (Link.to_dict l).lookup "source" = some (.str l.source) ∧
      (Link.to_dict l).lookup "target" = some (.str l.target)) :=
  ⟨rfl, rfl, rfl, rfl, rfl, rfl, rfl,
    fun _ _ => ⟨rfl, rfl⟩, fun _ _ => ⟨rfl, rfl, rfl⟩⟩

/-- C9 witness: the serialization facts instantiated on a concrete block
with a pin and a link. -/
theorem to_dict_fields_witness :
    (Block.to_dict 1 bPinned).lookup "name" = some (.str bPinned.name) ∧
    (Pin.to_dict ⟨"p", [("f", "1")]⟩).lookup "name" = some (.str "p") ∧
    (Link.to_dict ⟨"n", "a", "b"⟩).lookup "source" = some (.str "a") :=
  ⟨(to_dict_fields 0 bPinned).1,
    ((to_dict_fields 0 bPinned).2.2.2.2.2.2.2.1 ⟨"p", [("f", "1")]⟩
      (by decide)).1,
    ((to_dict_fields 0 bPinned).2.2.2.2.2.2.2.2 ⟨"n", "a", "b"⟩
      (by decide)).2.1⟩

/-- C6 counterexample: in the interface design the builder flattens the
interface's pins into the enclosing block (so the interface vertex was
traversed), yet the interface vertex is never added to the all-visited
registry. -/
theorem interface_vertex_not_registered :
    (mIface.vertexAt 1).vtype = VertexType.interface ∧
    (generic_visit_block mIface 5 0).block.pins.map Pin.name = ["I-a", "I-b"] ∧
    1 ∉ (generic_visit_block mIface 5 0).visited := by
  refine ⟨rfl, by decide, by decide⟩

/-- C3 counterexample: a pin pruned by elision is nevertheless registered
as visited, so its `connects_to` edge is not dropped: it produces a Link
in the enclosing block. -/
theorem elided_pin_edge_not_dropped :
    visit_pin mElide 1 = none ∧
    1 ∈ (generic_visit_block mElide 3 0).visited ∧
    (build mElide 3 0).toOption.map (fun b => b.links.map Link.name) =
      some ["r~s"] := by
  refine ⟨by decide, by decide, rfl⟩

/-- An edge with an endpoint outside the visited set resolves to no
link. -/
theorem process_connection_eq_none (m : Model) (visited : List Nat) (e : Edge)
    (h : e.src ∉ visited ∨ e.tgt ∉ visited) :
    process_connection m visited e = none := by
  unfold process_connection
  rw [if_neg]
  rintro ⟨h1, h2⟩
  cases h <;> contradiction

/-- C3 (amended): every `connects_to` edge whose source or target vertex
was never visited by the builder — e.g. a vertex outside the subtree
rooted at the build root — is dropped silently by the connection loop: it
contributes no Link and raises no error; pins pruned by elision are not
such a case, as they are registered as visited anyway. -/
theorem unvisited_edge_dropped (m : Model) (visited : List Nat)
    (dirPaths : List (List String)) (es1 es2 : List Edge) (e : Edge)
    (h : e.src ∉ visited ∨ e.tgt ∉ visited) :
    append_links m visited dirPaths (es1 ++ e :: es2) =
      append_links m visited dirPaths (es1 ++ es2) := by
  induction es1 with
  | nil =>
      simp only [List.nil_append, append_links,
        process_connection_eq_none m visited e h]
  | cons a as ih =>
      simp only [List.cons_append, append_links, List.append_eq, ih]

/-- C3 witness: a `connects_to` edge of the elision design, relative to a
visited set containing only the root, is dropped without error. -/
theorem unvisited_edge_dropped_witness :
    ((1 : Nat) ∉ ([0] : List Nat) ∨ (2 : Nat) ∉ ([0] : List Nat)) ∧
    append_links mElide [0] [["M"]]
        ([] ++ (⟨1, 2, EdgeType.connects_to⟩ : Edge) :: []) =
      append_links mElide [0] [["M"]] ([] ++ []) :=
  ⟨Or.inl (by decide),
    unvisited_edge_dropped mElide [0] [["M"]] [] []
      ⟨1, 2, EdgeType.connects_to⟩ (Or.inl (by decide))⟩

/-- C7: a visited block vertex with no outbound `instance_of` edge yields
a Block with no `instance_of`; with one or more such edges the first
adjacent vertex's path is used deterministically; with more than one a
warning is reported and the build continues. -/
theorem instance_of_selection (m : Model) (fuel i : Nat) :
    (m.adjacentsOut EdgeType.instance_of i = [] →
      (generic_visit_block m (fuel + 1) i).block.instance_of = none)
  ∧ (∀ j rest, m.adjacentsOut EdgeType.instance_of i = j :: rest →
      (generic_visit_block m (fuel + 1) i).block.instance_of =
        some (pathStr (m.vertexAt j).path))
  ∧ (1 < (m.adjacentsOut EdgeType.instance_of i).length →
      0 < (generic_visit_block m (fuel + 1) i).warnings) := by
  refine ⟨?_, ?_, ?_⟩
  · intro h
    simp [generic_visit_block, h]
  · intro j rest h
    simp [generic_visit_block, h]
  · intro h
    simp only [generic_visit_block, if_pos h]
    omega

/-- C7 witness: in the end-to-end design, component `C1` is an
`instance_of` two templates: the first (`T1`) is used and a warning is
counted. -/
theorem instance_of_selection_witness :
    mDesign.adjacentsOut EdgeType.instance_of 1 = 6 :: [7] ∧
    (generic_visit_block mDesign 3 1).block.instance_of =
      some (pathStr (mDesign.vertexAt 6).path) ∧
    1 < (mDesign.adjacentsOut EdgeType.instance_of 1).length ∧
    0 < (generic_visit_block mDesign 3 1).warnings :=
  ⟨by decide, (instance_of_selection mDesign 2 1).2.1 6 [7] (by decide),
    by decide, (instance_of_selection mDesign 2 1).2.2 (by decide)⟩

/-- On a sequence with no interface-typed vertex the scan finds no split
point. -/
theorem splitAtInterface_eq_none (l : List Vertex)
    (h : ∀ u ∈ l, u.vtype ≠ VertexType.interface) :
    splitAtInterface l = none := by
  induction l with
  | nil => rfl
  | cons v vs ih =>
      simp only [splitAtInterface]
      rw [if_neg (h v (List.mem_cons_self v vs)),
        ih (fun u hu => h u (List.mem_cons_of_mem v hu))]
      rfl

/-- The scan splits exactly at the first interface-typed vertex. -/
theorem splitAtInterface_eq_some (pre : List Vertex) (v : Vertex)
    (post : List Vertex) (h1 : ∀ u ∈ pre, u.vtype ≠ VertexType.interface)
    (h2 : v.vtype = VertexType.interface) :
    splitAtInterface (pre ++ v :: post) = some (pre, v :: post) := by
  induction pre with
  | nil => simp [splitAtInterface, h2]
  | cons a as ih =>
      simp only [List.cons_append, splitAtInterface, List.append_eq]
      rw [if_neg (h1 a (List.mem_cons_self a as)),
        ih (fun u hu => h1 u (List.mem_cons_of_mem a hu))]
      rfl

/-- C5: rendering a relative-path sequence uses dots throughout when no
vertex is interface-typed; otherwise, at the first interface-typed
vertex, everything strictly before it is dot-separated, it and everything
after it hyphen-separated, and the two halves are joined by exactly one
dot. -/
theorem mod_path_spec (mvvs : List Vertex) :
    ((∀ u ∈ mvvs, u.vtype ≠ VertexType.interface) →
      mod_path mvvs = String.intercalate "." (mvvs.map Vertex.ref))
  ∧ (∀ pre v post, mvvs = pre ++ v :: post →
      (∀ u ∈ pre, u.vtype ≠ VertexType.interface) →
      v.vtype = VertexType.interface →
      mod_path mvvs = String.intercalate "." (pre.map Vertex.ref) ++ "." ++
        String.intercalate "-" ((v :: post).map Vertex.ref)) := by
  constructor
  · intro h
    unfold mod_path
    rw [splitAtInterface_eq_none mvvs h]
  · intro pre v post heq h1 h2
    subst heq
    unfold mod_path
    rw [splitAtInterface_eq_some pre v post h1 h2]

/-- C5 witness: a path with no interface renders fully dotted
(`C2.q`); a path whose second vertex is an interface renders with dots
before it and hyphens from it on (`C1.I-a`). -/
theorem mod_path_spec_witness :
    mod_path [⟨["M", "C2"], VertexType.component, []⟩,
        ⟨["M", "C2", "q"], VertexType.pin, []⟩] =
      String.intercalate "."
        ([(⟨["M", "C2"], VertexType.component, []⟩ : Vertex),
          ⟨["M", "C2", "q"], VertexType.pin, []⟩].map Vertex.ref) ∧
    mod_path [⟨["M", "C1"], VertexType.component, []⟩,
        ⟨["M", "C1", "I"], VertexType.interface, []⟩,
        ⟨["M", "C1", "I", "a"], VertexType.pin, []⟩] =
      String.intercalate "."
          ([(⟨["M", "C1"], VertexType.component, []⟩ : Vertex)].map Vertex.ref)
        ++ "." ++
        String.intercalate "-"
          ([(⟨["M", "C1", "I"], VertexType.interface, []⟩ : Vertex),
            ⟨["M", "C1", "I", "a"], VertexType.pin, []⟩].map Vertex.ref) :=
  ⟨(mod_path_spec _).1 (by decide),
    (mod_path_spec _).2
      [⟨["M", "C1"], VertexType.component, []⟩]
      ⟨["M", "C1", "I"], VertexType.interface, []⟩
      [⟨["M", "C1", "I", "a"], VertexType.pin, []⟩]
      rfl (by decide) rfl⟩

/-- C4: an interface-typed vertex is never materialized as a Block (it is
filtered out of the child-block wander) and contributes no Pin of its
own: visiting it yields exactly the Pins gathered from its
`part_of`-children, each renamed by prefixing the interface's local name
joined by a hyphen, fields untouched. -/
theorem interface_flattening (m : Model) (fuel j : Nat)
    (hj : (m.vertexAt j).vtype = VertexType.interface) :
    (∀ p ∈ (visit_interface m fuel j).1,
      ∃ q ∈ (wander_interface m fuel j).1,
        p.name = (m.vertexAt j).ref ++ "-" ++ q.name ∧ p.pfields = q.pfields)
  ∧ (visit_interface m fuel j).1.length = (wander_interface m fuel j).1.length
  ∧ (∀ i, j ∉ m.childrenOfTypes i [VertexType.component, VertexType.module]) := by
  refine ⟨?_, ?_, ?_⟩
  · intro p hp
    simp only [visit_interface] at hp
    rcases List.mem_map.mp hp with ⟨q, hq, hpq⟩
    exact ⟨q, hq, by rw [← hpq], by rw [← hpq]⟩
  · simp [visit_interface]
  · intro i hmem
    have hfilter := (List.mem_filter.mp hmem).2
    rw [hj] at hfilter
    simp at hfilter

/-- C4 witness: nested interfaces `I1` containing `I2` containing pin `P`
flatten to a single pin named `I1-I2-P` in the enclosing block, and the
renaming property instantiates on the outer interface. -/
theorem interface_flattening_witness :
    (mNested.vertexAt 1).vtype = VertexType.interface ∧
    (generic_visit_block mNested 4 0).block.pins.map Pin.name = ["I1-I2-P"] ∧
    (wander_interface mNested 2 1).1.map Pin.name = ["I2-P"] ∧
    (∀ p ∈ (visit_interface mNested 2 1).1,
      ∃ q ∈ (wander_interface mNested 2 1).1,
        p.name = (mNested.vertexAt 1).ref ++ "-" ++ q.name ∧
        p.pfields = q.pfields) :=
  ⟨by decide, by decide, by decide,
    (interface_flattening mNested 2 1 (by decide)).1⟩

/-- Every index the pin-gathering walk registers as visited belongs to a
pin-typed or signal-typed vertex: interface vertices are walked through
but never registered. -/
theorem wander_visited_pin_or_signal (m : Model) :
    ∀ fuel i j, j ∈ (wander_interface m fuel i).2 →
      (m.vertexAt j).vtype = VertexType.pin ∨
      (m.vertexAt j).vtype = VertexType.signal := by
  intro fuel
  induction fuel with
  | zero =>
      intro i j hj
      simp [wander_interface] at hj
  | succ fuel ih =>
      intro i j hj
      simp only [wander_interface, List.map_map] at hj
      rw [List.mem_flatten] at hj
      rcases hj with ⟨l, hl, hjl⟩
      rw [List.mem_map] at hl
      rcases hl with ⟨k, hk, hkl⟩
      rcases hv : (m.vertexAt k).vtype with _ | _ | _ | _ | _ | _
      all_goals (rw [← hkl] at hjl; simp only [Function.comp, hv] at hjl)
      case pin =>
        simp at hjl
        subst hjl
        exact Or.inl hv
      case signal =>
        simp at hjl
        subst hjl
        exact Or.inr hv
      case interface => exact ih k j hjl
      all_goals simp at hjl

/-- C6 (amended): every vertex visited under the generic block rule and
every pin-typed or signal-typed vertex visited during pin gathering
(elided pins included) is added to the flat all-visited registry;
interface-typed vertices, although walked through for flattening, are not
added. -/
theorem visited_registry (m : Model) (fuel i : Nat) :
    (∀ j ∈ (wander_interface m fuel i).2,
      (m.vertexAt j).vtype = VertexType.pin ∨
      (m.vertexAt j).vtype = VertexType.signal)
  ∧ (∀ j ∈ m.childrenOfTypes i
        [VertexType.pin, VertexType.signal, VertexType.interface],
      (m.vertexAt j).vtype ≠ VertexType.interface →
      j ∈ (wander_interface m (fuel + 1) i).2)
  ∧ i ∈ (generic_visit_block m (fuel + 1) i).visited
  ∧ (∀ j ∈ m.childrenOfTypes i [VertexType.component, VertexType.module],
      j ∈ (generic_visit_block m (fuel + 2) i).visited) := by
  refine ⟨wander_visited_pin_or_signal m fuel i, ?_, ?_, ?_⟩
  · intro j hjmem hjni
    have hin := (List.mem_filter.mp hjmem).2
    simp only [List.mem_cons, List.not_mem_nil, or_false,
      decide_eq_true_eq] at hin
    simp only [wander_interface, List.map_map]
    rw [List.mem_flatten]
    rcases hin with hv | hv | hv
    · exact ⟨[j], List.mem_map.mpr ⟨j, hjmem, by simp [Function.comp, hv]⟩,
        List.mem_singleton.mpr rfl⟩
    · exact ⟨[j], List.mem_map.mpr ⟨j, hjmem, by simp [Function.comp, hv]⟩,
        List.mem_singleton.mpr rfl⟩
    · exact absurd hv hjni
  · simp [generic_visit_block]
  · intro j hj
    have hstep : (generic_visit_block m (fuel + 2) i).visited =
        i :: ((((m.childrenOfTypes i
              [VertexType.component, VertexType.module]).map
            (fun k => generic_visit_block m (fuel + 1) k)).map
              VisitOut.visited).flatten ++
          (wander_interface m (fuel + 1) i).2) := rfl
    have hself : j ∈ (generic_visit_block m (fuel + 1) j).visited := by
      have hstep2 : (generic_visit_block m (fuel + 1) j).visited =
          j :: ((((m.childrenOfTypes j
                [VertexType.component, VertexType.module]).map
              (fun k => generic_visit_block m fuel k)).map
                VisitOut.visited).flatten ++
            (wander_interface m fuel j).2) := rfl
      rw [hstep2]
      exact List.mem_cons_self _ _
    rw [hstep]
    refine List.mem_cons_of_mem _ (List.mem_append_left _ ?_)
    rw [List.mem_flatten]
    exact ⟨(generic_visit_block m (fuel + 1) j).visited,
      List.mem_map.mpr ⟨generic_visit_block m (fuel + 1) j,
        List.mem_map.mpr ⟨j, hj, rfl⟩, rfl⟩, hself⟩

/-- C6 witness: on the interface design, the pins of the interface are in
the registry and are pin-typed, and the root and its block children are
registered. -/
theorem visited_registry_witness :
    2 ∈ (wander_interface mIface 1 1).2 ∧
    ((mIface.vertexAt 2).vtype = VertexType.pin ∨
      (mIface.vertexAt 2).vtype = VertexType.signal) ∧
    0 ∈ (generic_visit_block mIface 2 0).visited :=
  ⟨by decide, (visited_registry mIface 1 1).1 2 (by decide),
    (visited_registry mIface 1 0).2.2.1⟩

/-- An edge with both endpoints in the visited set resolves to exactly
the pair described by `linkSpec`. -/
theorem process_connection_eq_some (m : Model) (visited : List Nat) (e : Edge)
    (h : e.src ∈ visited ∧ e.tgt ∈ visited) :
    process_connection m visited e = some (linkSpec m e) := by
  unfold process_connection linkSpec
  rw [if_pos h]

/-- C2: when the connection loop completes, it has produced exactly one
append per `connects_to` edge with both endpoints visited, in edge order:
the appended Link carries the connection name from LCA resolution and the
two endpoints' relative paths rendered by the dual-separator rule, and it
is keyed by the LCA's path, which names an existing directory Block. -/
theorem append_links_per_eligible_edge (m : Model) (visited : List Nat)
    (dirPaths : List (List String)) (es : List Edge)
    (pairs : List (List String × Link))
    (h : append_links m visited dirPaths es = Except.ok pairs) :
    pairs = (es.filter
        (fun e => decide (e.src ∈ visited ∧ e.tgt ∈ visited))).map (linkSpec m)
    ∧ ∀ pl ∈ pairs, pl.1 ∈ dirPaths := by
  induction es generalizing pairs with
  | nil =>
      have hp : ([] : List (List String × Link)) = pairs := Except.ok.inj h
      subst hp
      exact ⟨rfl, fun pl hpl => absurd hpl (List.not_mem_nil pl)⟩
  | cons e es ih =>
      simp only [append_links] at h
      by_cases helig : e.src ∈ visited ∧ e.tgt ∈ visited
      · simp only [process_connection_eq_some m visited e helig] at h
        by_cases hdir : (linkSpec m e).1 ∈ dirPaths
        · rw [if_pos hdir] at h
          rcases hrec : append_links m visited dirPaths es with s | rest
          · rw [hrec] at h
            exact Except.noConfusion h
          · rw [hrec] at h
            have hp : linkSpec m e :: rest = pairs := Except.ok.inj h
            obtain ⟨ih1, ih2⟩ := ih rest hrec
            subst hp
            constructor
            · rw [List.filter_cons, if_pos (by simpa using helig), List.map_cons,
                ih1]
            · intro pl hpl
              rcases List.mem_cons.mp hpl with hpl | hpl
              · rw [hpl]
                exact hdir
              · exact ih2 pl hpl
        · rw [if_neg hdir] at h
          exact Except.noConfusion h
      · simp only [process_connection_eq_none m visited e
          (not_and_or.mp helig)] at h
        obtain ⟨ih1, ih2⟩ := ih pairs h
        refine ⟨?_, ih2⟩
        rw [List.filter_cons, if_neg (by simpa using helig), ih1]

/-- The visited indices of the end-to-end design's traversal. -/
def mDesignVisited : List Nat := (generic_visit_block mDesign 5 0).visited

/-- The directory paths of the end-to-end design's traversal. -/
def mDesignDirPaths : List (List String) :=
  (generic_visit_block mDesign 5 0).dirPaths

/-- C2 witness: on the end-to-end design the loop appends the `p`–`s`
Link under `M.C1` and the `q`–`p` Link under `M`, exactly the eligible
edges in order, each keyed by a directory path. -/
theorem append_links_per_eligible_edge_witness :
    append_links mDesign mDesignVisited mDesignDirPaths
        (mDesign.edgesOfType EdgeType.connects_to) =
      Except.ok [(["M", "C1"], ⟨"p~s", "p", "s"⟩),
        (["M"], ⟨"C2.q~C1.p", "C2.q", "C1.p"⟩)] ∧
    ([((["M", "C1"] : List String), (⟨"p~s", "p", "s"⟩ : Link)),
        (["M"], ⟨"C2.q~C1.p", "C2.q", "C1.p"⟩)] =
      ((mDesign.edgesOfType EdgeType.connects_to).filter
          (fun e => decide (e.src ∈ mDesignVisited ∧ e.tgt ∈ mDesignVisited))).map
        (linkSpec mDesign)
    ∧ ∀ pl ∈ [((["M", "C1"] : List String), (⟨"p~s", "p", "s"⟩ : Link)),
        (["M"], ⟨"C2.q~C1.p", "C2.q", "C1.p"⟩)], pl.1 ∈ mDesignDirPaths) :=
  ⟨rfl, append_links_per_eligible_edge mDesign mDesignVisited mDesignDirPaths
    (mDesign.edgesOfType EdgeType.connects_to)
    [(["M", "C1"], ⟨"p~s", "p", "s"⟩),
      (["M"], ⟨"C2.q~C1.p", "C2.q", "C1.p"⟩)] rfl⟩

/-- C1: a visited pin-typed vertex is elided (contributes no Pin) if and
only if it has exactly one `connects_to` edge in total counting both
directions, the other endpoint of that edge is a signal-typed vertex, and
that signal's parent path equals the pin's own parent path; in every
other case the pin is materialized. -/
theorem visit_pin_elided_iff (m : Model) (j : Nat)
    (hj : (m.vertexAt j).vtype = VertexType.pin) :
    visit_pin m j = none ↔ elidedSpec m j := by
  simp only [visit_pin]
  by_cases hlen : (m.inEdges EdgeType.connects_to j).length +
      (m.outEdges EdgeType.connects_to j).length = 1
  case neg =>
    rw [if_neg hlen]
    apply iff_of_false
    · simp
    · rintro ⟨e, he, -, -⟩
      have hlen2 := congrArg List.length he
      rw [List.length_append] at hlen2
      exact hlen (by simpa using hlen2)
  case pos =>
    rw [if_pos hlen]
    rcases hci : m.inEdges EdgeType.connects_to j with _ | ⟨e1, rest⟩
    · -- no inbound connection: the single edge is outbound
      have hco1 : (m.outEdges EdgeType.connects_to j).length = 1 := by
        rw [hci] at hlen
        simpa using hlen
      obtain ⟨e2, hco⟩ := List.length_eq_one.mp hco1
      have he2mem : e2 ∈ m.outEdges EdgeType.connects_to j := by
        rw [hco]
        exact List.mem_singleton.mpr rfl
      have he2p := List.mem_filter.mp he2mem
      have hpred : e2.etype = EdgeType.connects_to ∧ e2.src = j := by
        simpa using he2p.2
      have htgt_ne : e2.tgt ≠ j := by
        intro habs
        have hin : e2 ∈ m.inEdges EdgeType.connects_to j :=
          List.mem_filter.mpr ⟨he2p.1, by simp [hpred.1, habs]⟩
        rw [hci] at hin
        exact absurd hin (List.not_mem_nil e2)
      have hspec : elidedSpec m j ↔
          ((m.vertexAt e2.tgt).vtype = VertexType.signal ∧
            (m.vertexAt e2.tgt).parent_path = (m.vertexAt j).parent_path) := by
        unfold elidedSpec
        rw [hci, hco]
        simp only [List.nil_append, Edge.otherEnd]
        constructor
        · rintro ⟨e, he, hs, hp⟩
          injection he with h1 _
          subst h1
          rw [if_neg htgt_ne] at hs hp
          exact ⟨hs, hp⟩
        · intro hc
          exact ⟨e2, rfl, by rw [if_neg htgt_ne]; exact hc.1,
            by rw [if_neg htgt_ne]; exact hc.2⟩
      rw [hspec, hco]
      by_cases hc : (m.vertexAt e2.tgt).vtype = VertexType.signal ∧
          (m.vertexAt e2.tgt).parent_path = (m.vertexAt j).parent_path
      · simp [hc]
      · simp only [List.length_nil, List.headD_cons]
        rw [if_neg (by decide : ¬(0 = 1))]
        apply iff_of_false _ hc
        rw [if_neg hc]
        simp
    · -- one inbound connection: the rest is empty
      have hlens : rest.length = 0 ∧
          (m.outEdges EdgeType.connects_to j).length = 0 := by
        rw [hci] at hlen
        simp only [List.length_cons] at hlen
        omega
      have hrest0 : rest = [] := List.length_eq_zero.mp hlens.1
      have hco : m.outEdges EdgeType.connects_to j = [] :=
        List.length_eq_zero.mp hlens.2
      subst hrest0
      have he1mem : e1 ∈ m.inEdges EdgeType.connects_to j := by
        rw [hci]
        exact List.mem_singleton.mpr rfl
      have he1p := List.mem_filter.mp he1mem
      have hpred : e1.etype = EdgeType.connects_to ∧ e1.tgt = j := by
        simpa using he1p.2
      have hspec : elidedSpec m j ↔
          ((m.vertexAt e1.src).vtype = VertexType.signal ∧
            (m.vertexAt e1.src).parent_path = (m.vertexAt j).parent_path) := by
        unfold elidedSpec
        rw [hci, hco]
        simp only [List.append_nil, Edge.otherEnd]
        constructor
        · rintro ⟨e, he, hs, hp⟩
          injection he with h1 _
          subst h1
          rw [if_pos hpred.2] at hs hp
          exact ⟨hs, hp⟩
        · intro hc
          exact ⟨e1, rfl, by rw [if_pos hpred.2]; exact hc.1,
            by rw [if_pos hpred.2]; exact hc.2⟩
      rw [hspec, hco]
      by_cases hc : (m.vertexAt e1.src).vtype = VertexType.signal ∧
          (m.vertexAt e1.src).parent_path = (m.vertexAt j).parent_path
      · simp [hc]
      · simp only [List.length_singleton, List.headD_cons, if_true]
        apply iff_of_false _ hc
        rw [if_neg hc]
        simp

/-- C1 witness: in the elision design the pin `r` is pin-typed and the
equivalence holds there (its sole connection targets the same-parent
signal `s`, so it is elided); in the end-to-end design the pin `p` with
two connections is materialized. -/
theorem visit_pin_elided_iff_witness :
    (mElide.vertexAt 1).vtype = VertexType.pin ∧
    (visit_pin mElide 1 = none ↔ elidedSpec mElide 1) ∧
    visit_pin mElide 1 = none ∧
    visit_pin mDesign 3 = some (generic_visit_pin mDesign 3) :=
  ⟨by decide, visit_pin_elided_iff mElide 1 (by decide), by decide, by decide⟩

end Atopile
